import Mathlib

/-!
Verification of the pure utility logic of the `gcp-pulumi` repository.

The repository's own logic (its provider wiring aside) consists of three pure
pieces, embedded here:

* `deep_merge` — recursive dict merge from `src/programs/otel-collector-gke/__main__.py`
  (lines 16–24), modelled on association-list dictionaries over a `Val` tree type.
* `_subst_template` — the `${VAR}` template substitution from
  `src/components/warpstreamagents/warpstream_cluster.py` (lines 16–19),
  modelled as a left-to-right character scanner mirroring
  `re.sub(r"\$\{([A-Za-z_][A-Za-z0-9_]*)\}", repl, text)` with
  `repl(m) = str(mapping.get(m.group(1), m.group(0)))`.
* the two kubeconfig renderers — `_generate_kubeconfig_string` from
  `src/components/gke-cluster/kubeconfig_generator.py` (lines 29–68) and the
  `_render` body of `kubeconfig_gke_exec` from
  `src/components/kubeconfig/kubeconfig.py` (lines 12–47) — modelled as the
  structured (JSON/YAML-parsed) documents they serialize.
-/

set_option autoImplicit false

/-- A Python value as it appears in the configuration trees handled by
`deep_merge`: scalars, sequences, or string-keyed mappings.  Mappings are
modelled as insertion-ordered association lists, matching Python's
insertion-ordered `dict`. -/
inductive Val where
  | str (s : String)
  | int (n : Int)
  | bool (b : Bool)
  | null
  | seq (items : List Val)
  | map (entries : List (String × Val))
deriving Repr

/-- A Python dict of `Val`s: insertion-ordered entries. -/
abbrev Dict := List (String × Val)

/-- `d.get(k)` on an association-list dict: first entry whose key is `key`. -/
def dictGet : Dict → String → Option Val
  | [], _ => none
  | (k, v) :: rest, key => if k = key then some v else dictGet rest key

/-- `d[k] = v` on an association-list dict: replace the value at an existing
key in place (Python dicts keep the key's insertion position on update), or
append a fresh entry at the end. -/
def dictSet : Dict → String → Val → Dict
  | [], key, v => [(key, v)]
  | (k, w) :: rest, key, v =>
      if k = key then (k, v) :: rest else (k, w) :: dictSet rest key v

/-- The keys of a dict, in insertion order. -/
def dictKeys (m : Dict) : List String := m.map Prod.fst

/-- `isinstance(v, dict)`. -/
def isDictVal : Val → Bool
  | Val.map _ => true
  | _ => false

/-- Embedding of `deep_merge` (src/programs/otel-collector-gke/__main__.py,
lines 16–24):

```python
def deep_merge(a: dict, b: dict) -> dict:
    out = dict(a or {})
    for k, v in (b or {}).items():
        if isinstance(v, dict) and isinstance(out.get(k), dict):
            out[k] = deep_merge(out[k], v)
        else:
            out[k] = v
    return out
```

The accumulator `out` starts as a copy of `a`; the entries of `b` are folded
into it in order.  The first argument below is the evolving accumulator, the
second the remaining entries of `b`. -/
def deep_merge : Dict → Dict → Dict
  | a, [] => a
  | a, (k, Val.map vb) :: rest =>
      match dictGet a k with
      | some (Val.map va) => deep_merge (dictSet a k (Val.map (deep_merge va vb))) rest
      | _ => deep_merge (dictSet a k (Val.map vb)) rest
  | a, (k, v) :: rest => deep_merge (dictSet a k v) rest

/-- `deep_merge` with Python `None` arguments: `a or {}` / `b or {}` treat a
missing (`None`) dict as empty. -/
def deep_mergeOpt (a b : Option Dict) : Dict :=
  deep_merge (a.getD []) (b.getD [])

/-- Well-formedness of a `Val` as produced by deserializing YAML/JSON into
Python dicts: every mapping in the tree has pairwise-distinct keys. -/
def wfVal : Val → Bool
  | Val.str _ => true
  | Val.int _ => true
  | Val.bool _ => true
  | Val.null => true
  | Val.seq [] => true
  | Val.seq (v :: rest) => wfVal v && wfVal (Val.seq rest)
  | Val.map [] => true
  | Val.map ((k, v) :: rest) =>
      !((rest.map Prod.fst).contains k) && wfVal v && wfVal (Val.map rest)

/-- Well-formedness of a dict: see `wfVal`. -/
def wfDict (m : Dict) : Bool := wfVal (Val.map m)

/-- One iteration of the `deep_merge` loop body: the value stored at `k` when
entry `(k, v)` of `override` is folded into the accumulator `out` —
`deep_merge(out[k], v)` when both sides are dicts, else `v`. -/
def mergeOne (out : Dict) (k : String) (v : Val) : Val :=
  match v, dictGet out k with
  | Val.map vb, some (Val.map va) => Val.map (deep_merge va vb)
  | _, _ => v

/-- The value the spec's merge invariant predicts at `key` after merging
`override` into `base`: recursive merge when both sides hold mappings,
otherwise the `override` value verbatim, otherwise the `base` value. -/
def mergeSpecGet (base override : Dict) (key : String) : Option Val :=
  match dictGet override key with
  | some v => some (mergeOne base key v)
  | none => dictGet base key

theorem dictGet_set_eq (m : Dict) (k : String) (v : Val) :
    dictGet (dictSet m k v) k = some v := by
  induction m with
  | nil => simp [dictSet, dictGet]
  | cons p rest ih =>
      obtain ⟨k', w⟩ := p
      by_cases h : k' = k <;> simp [dictSet, dictGet, h, ih]

theorem dictGet_set_ne (m : Dict) (k key : String) (v : Val) (h : k ≠ key) :
    dictGet (dictSet m k v) key = dictGet m key := by
  induction m with
  | nil => simp [dictSet, dictGet, h]
  | cons p rest ih =>
      obtain ⟨k', w⟩ := p
      by_cases h' : k' = k
      · subst h'
        simp [dictSet, dictGet, h]
      · simp [dictSet, dictGet, h', ih]

theorem dictSet_self {m : Dict} {k : String} {v : Val}
    (h : dictGet m k = some v) : dictSet m k v = m := by
  induction m with
  | nil => simp [dictGet] at h
  | cons p rest ih =>
      obtain ⟨k', w⟩ := p
      by_cases h' : k' = k
      · subst h'
        simp [dictGet] at h
        simp [dictSet, h]
      · simp [dictGet, h'] at h
        simp [dictSet, h', ih h]

theorem dictKeys_cons (k : String) (v : Val) (rest : Dict) :
    dictKeys ((k, v) :: rest) = k :: dictKeys rest := rfl

theorem dictGet_eq_none_of_not_mem {m : Dict} {k : String}
    (h : k ∉ dictKeys m) : dictGet m k = none := by
  induction m with
  | nil => simp [dictGet]
  | cons p rest ih =>
      obtain ⟨k', w⟩ := p
      rw [dictKeys_cons, List.mem_cons] at h
      push_neg at h
      have hne : ¬k' = k := fun hh => h.1 hh.symm
      simp [dictGet, hne, ih h.2]

theorem wfDict_cons {k : String} {v : Val} {rest : Dict}
    (h : wfDict ((k, v) :: rest) = true) :
    k ∉ dictKeys rest ∧ wfVal v = true ∧ wfDict rest = true := by
  rw [wfDict] at h
  simp only [wfVal, Bool.and_eq_true, Bool.not_eq_true'] at h
  refine ⟨?_, h.1.2, h.2⟩
  intro hmem
  rw [dictKeys] at hmem
  have hc : (rest.map Prod.fst).contains k = true := by simpa using hmem
  rw [hc] at h
  exact absurd h.1.1 (by simp)

theorem wf_dictGet_mem {m : Dict} (hwf : wfDict m = true) :
    ∀ p ∈ m, dictGet m p.1 = some p.2 := by
  induction m with
  | nil => intro p hp; simp at hp
  | cons q rest ih =>
      obtain ⟨k', w⟩ := q
      obtain ⟨hk, _, hrest⟩ := wfDict_cons hwf
      intro p hp
      rw [List.mem_cons] at hp
      rcases hp with hp | hp
      · subst hp; simp [dictGet]
      · have hkey : p.1 ∈ dictKeys rest := by
          simpa [dictKeys] using List.mem_map_of_mem Prod.fst hp
        have hne : k' ≠ p.1 := fun h => hk (h ▸ hkey)
        simp [dictGet, hne, ih hrest p hp]

theorem mergeOne_congr {out1 out2 : Dict} {key : String}
    (h : dictGet out1 key = dictGet out2 key) (v : Val) :
    mergeOne out1 key v = mergeOne out2 key v := by
  unfold mergeOne
  rw [h]

theorem deep_merge_cons (a : Dict) (k : String) (v : Val) (rest : Dict) :
    deep_merge a ((k, v) :: rest) = deep_merge (dictSet a k (mergeOne a k v)) rest := by
  cases v with
  | map vb =>
      cases hA : dictGet a k with
      | none => simp [deep_merge, mergeOne, hA]
      | some w => cases w <;> simp [deep_merge, mergeOne, hA]
  | str s => simp [deep_merge, mergeOne]
  | int n => simp [deep_merge, mergeOne]
  | bool b => simp [deep_merge, mergeOne]
  | null => simp [deep_merge, mergeOne]
  | seq l => simp [deep_merge, mergeOne]

theorem wfDict_nodupKeys {m : Dict} (h : wfDict m = true) : (dictKeys m).Nodup := by
  induction m with
  | nil => simp [dictKeys]
  | cons p rest ih =>
      obtain ⟨k, v⟩ := p
      obtain ⟨hk, _, hrest⟩ := wfDict_cons h
      rw [dictKeys_cons]
      exact List.Nodup.cons hk (ih hrest)

theorem deep_merge_get (b : Dict) : ∀ (a : Dict) (key : String),
    (dictKeys b).Nodup →
    dictGet (deep_merge a b) key = mergeSpecGet a b key := by
  induction b with
  | nil => intro a key _; simp [deep_merge, mergeSpecGet, dictGet]
  | cons p rest ih =>
      obtain ⟨k, v⟩ := p
      intro a key hnd
      rw [dictKeys_cons, List.nodup_cons] at hnd
      obtain ⟨hk, hnd'⟩ := hnd
      rw [deep_merge_cons, ih _ key hnd']
      by_cases hkey : k = key
      · subst hkey
        have hrest : dictGet rest k = none := dictGet_eq_none_of_not_mem hk
        simp [mergeSpecGet, hrest, dictGet_set_eq, dictGet]
      · have hset : dictGet (dictSet a k (mergeOne a k v)) key = dictGet a key :=
          dictGet_set_ne _ _ _ _ hkey
        cases hB : dictGet rest key with
        | none => simp [mergeSpecGet, dictGet, hkey, hB, hset]
        | some w => simp [mergeSpecGet, dictGet, hkey, hB, hset, mergeOne_congr hset]

theorem merge_self_aux : ∀ (n : Nat) (b : Dict), sizeOf b < n → ∀ a : Dict,
    wfDict b = true → (∀ p ∈ b, dictGet a p.1 = some p.2) → deep_merge a b = a := by
  intro n
  induction n with
  | zero => intro b hb; omega
  | succ n ih =>
      intro b hb a hwf hmem
      cases b with
      | nil => simp [deep_merge]
      | cons p rest =>
          obtain ⟨k, v⟩ := p
          obtain ⟨hk, hv, hrest⟩ := wfDict_cons hwf
          have hget : dictGet a k = some v := hmem (k, v) (List.mem_cons_self _ _)
          have hsz : sizeOf rest < n := by
            simp at hb
            omega
          rw [deep_merge_cons]
          have hone : mergeOne a k v = v := by
            cases v with
            | map vb =>
                have hvb : wfDict vb = true := hv
                have hszb : sizeOf vb < n := by
                  simp at hb
                  omega
                have hid : deep_merge vb vb = vb :=
                  ih vb hszb vb hvb (wf_dictGet_mem hvb)
                simp [mergeOne, hget, hid]
            | str s => simp [mergeOne]
            | int m => simp [mergeOne]
            | bool c => simp [mergeOne]
            | null => simp [mergeOne]
            | seq l => simp [mergeOne]
          rw [hone, dictSet_self hget]
          exact ih rest hsz a hrest (fun q hq => hmem q (List.mem_cons_of_mem _ hq))

theorem merge_get_both (a b : Dict) (key : String) (va vb : Dict)
    (hnd : (dictKeys b).Nodup) (ha : dictGet a key = some (Val.map va))
    (hb : dictGet b key = some (Val.map vb)) :
    dictGet (deep_merge a b) key = some (Val.map (deep_merge va vb)) := by
  rw [deep_merge_get b a key hnd]
  simp [mergeSpecGet, hb, mergeOne, ha]

theorem merge_get_override (a b : Dict) (key : String) (v : Val)
    (hnd : (dictKeys b).Nodup) (hb : dictGet b key = some v)
    (hnb : ¬∃ va vb, dictGet a key = some (Val.map va) ∧ v = Val.map vb) :
    dictGet (deep_merge a b) key = some v := by
  rw [deep_merge_get b a key hnd]
  simp only [mergeSpecGet, hb]
  cases v with
  | map vb =>
      cases hA : dictGet a key with
      | none => simp [mergeOne, hA]
      | some w =>
          cases w with
          | map va => exact absurd ⟨va, vb, hA, rfl⟩ hnb
          | str s => simp [mergeOne, hA]
          | int n => simp [mergeOne, hA]
          | bool c => simp [mergeOne, hA]
          | null => simp [mergeOne, hA]
          | seq l => simp [mergeOne, hA]
  | str s => simp [mergeOne]
  | int n => simp [mergeOne]
  | bool c => simp [mergeOne]
  | null => simp [mergeOne]
  | seq l => simp [mergeOne]

theorem merge_get_base (a b : Dict) (key : String)
    (hnd : (dictKeys b).Nodup) (hb : dictGet b key = none) :
    dictGet (deep_merge a b) key = dictGet a key := by
  rw [deep_merge_get b a key hnd]
  simp [mergeSpecGet, hb]

/-- **C4** — Merge override-wins with recursion: at any key held by both
trees, two mappings merge recursively; in every other case (scalar over
scalar, scalar over mapping, mapping over scalar, sequence over anything)
the override value is kept verbatim; keys held by only one input are copied
as-is.  Concretely, `merge({a:1, b:{c:2}}, {b:{c:3, d:4}})` gives
`{a:1, b:{c:3, d:4}}` and `merge({a:{x:1}}, {a:5})` gives `{a:5}`. -/
theorem merge_override_wins :
    (∀ (a b : Dict) (key : String) (va vb : Dict), (dictKeys b).Nodup →
        dictGet a key = some (Val.map va) → dictGet b key = some (Val.map vb) →
        dictGet (deep_merge a b) key = some (Val.map (deep_merge va vb))) ∧
    (∀ (a b : Dict) (key : String) (v : Val), (dictKeys b).Nodup →
        dictGet b key = some v →
        (¬∃ va vb, dictGet a key = some (Val.map va) ∧ v = Val.map vb) →
        dictGet (deep_merge a b) key = some v) ∧
    (∀ (a b : Dict) (key : String), (dictKeys b).Nodup →
        dictGet b key = none →
        dictGet (deep_merge a b) key = dictGet a key) ∧
    deep_merge [("a", Val.int 1), ("b", Val.map [("c", Val.int 2)])]
        [("b", Val.map [("c", Val.int 3), ("d", Val.int 4)])]
      = [("a", Val.int 1), ("b", Val.map [("c", Val.int 3), ("d", Val.int 4)])] ∧
    deep_merge [("a", Val.map [("x", Val.int 1)])] [("a", Val.int 5)]
      = [("a", Val.int 5)] :=
  ⟨merge_get_both, merge_get_override, merge_get_base,
   by simp [deep_merge, dictGet, dictSet],
   by simp [deep_merge, dictGet, dictSet]⟩

theorem merge_override_wins_witness :
    dictGet (deep_merge [("a", Val.map [("x", Val.int 1)])]
        [("a", Val.map [("y", Val.int 2)])]) "a"
      = some (Val.map (deep_merge [("x", Val.int 1)] [("y", Val.int 2)])) ∧
    dictGet (deep_merge [("a", Val.map [("x", Val.int 1)])] [("a", Val.int 5)]) "a"
      = some (Val.int 5) ∧
    dictGet (deep_merge [("a", Val.int 7)] [("b", Val.int 8)]) "a"
      = dictGet [("a", Val.int 7)] "a" :=
  ⟨merge_override_wins.1 _ _ "a" _ _ (by simp [dictKeys]) (by simp [dictGet]) (by simp [dictGet]),
   merge_override_wins.2.1 _ _ "a" _ (by simp [dictKeys]) (by simp [dictGet]) (by simp [dictGet]),
   merge_override_wins.2.2.1 _ _ "a" (by simp [dictKeys]) (by simp [dictGet])⟩

/-- **C6** — Merge idempotence: `merge(T, T) == T` for every tree `T`
(a Python dict tree, i.e. every mapping in it has distinct keys). -/
theorem merge_idempotent (t : Dict) (h : wfDict t = true) : deep_merge t t = t :=
  merge_self_aux (sizeOf t + 1) t (by omega) t h (wf_dictGet_mem h)

theorem merge_idempotent_witness :
    deep_merge
      [("a", Val.int 1), ("b", Val.map [("c", Val.str "x")]), ("d", Val.seq [Val.int 1])]
      [("a", Val.int 1), ("b", Val.map [("c", Val.str "x")]), ("d", Val.seq [Val.int 1])]
    = [("a", Val.int 1), ("b", Val.map [("c", Val.str "x")]), ("d", Val.seq [Val.int 1])] :=
  merge_idempotent _ (by simp [wfDict, wfVal])

/-- **C10** — Merge preserves the key universe: a key is present in the merge
of `a` and `b` exactly when it is present in `a` or in `b`; and at a key
where both values are mappings the merged value is itself a `deep_merge`, so
the same key-universe law applies at every depth of the result. -/
theorem merge_key_universe :
    (∀ (a b : Dict) (key : String), wfDict b = true →
        (dictGet (deep_merge a b) key).isSome
          = ((dictGet a key).isSome || (dictGet b key).isSome)) ∧
    (∀ (a b : Dict) (key : String) (va vb : Dict), wfDict b = true →
        dictGet a key = some (Val.map va) → dictGet b key = some (Val.map vb) →
        dictGet (deep_merge a b) key = some (Val.map (deep_merge va vb))) := by
  constructor
  · intro a b key hb
    rw [deep_merge_get b a key (wfDict_nodupKeys hb)]
    cases hB : dictGet b key with
    | none => simp [mergeSpecGet, hB]
    | some v => simp [mergeSpecGet, hB]
  · intro a b key va vb hb ha hbk
    exact merge_get_both a b key va vb (wfDict_nodupKeys hb) ha hbk

theorem merge_key_universe_witness :
    (dictGet (deep_merge [("a", Val.int 1)] [("b", Val.int 2)]) "b").isSome
      = ((dictGet [("a", Val.int 1)] "b").isSome || (dictGet [("b", Val.int 2)] "b").isSome) ∧
    dictGet (deep_merge [("a", Val.map [("x", Val.int 1)])]
        [("a", Val.map [("y", Val.int 2)])]) "a"
      = some (Val.map (deep_merge [("x", Val.int 1)] [("y", Val.int 2)])) :=
  ⟨merge_key_universe.1 _ _ "b" (by simp [wfDict, wfVal]),
   merge_key_universe.2 _ _ "a" _ _ (by simp [wfDict, wfVal])
     (by simp [dictGet]) (by simp [dictGet])⟩

/-- `[A-Za-z_]`: the first character of a placeholder identifier. -/
def isIdentStart (c : Char) : Bool := c.isAlpha || c = '_'

/-- `[A-Za-z0-9_]`: any further character of a placeholder identifier. -/
def isIdentChar (c : Char) : Bool := c.isAlphanum || c = '_'

/-- The dollar sign opening a `${...}` placeholder. -/
def dollarChar : Char := '$'

/-- The opening curly brace of a placeholder. -/
def lbraceChar : Char := Char.ofNat 123

/-- The closing curly brace of a placeholder. -/
def rbraceChar : Char := Char.ofNat 125

/-- A Python value as stored in the substitution mapping handed to
`_subst_template`.  The mapping is annotated `Dict[str, str]` but the code
applies `str(...)` to whatever it gets, so non-string values are legal. -/
inductive PyVal where
  | str (s : String)
  | int (n : Int)
  | bool (b : Bool)
deriving Repr, DecidableEq

/-- Python's `str()` on a mapping value: identity on strings, decimal text
for integers, `True`/`False` for booleans. -/
def pyStr : PyVal → String
  | PyVal.str s => s
  | PyVal.int n => toString n
  | PyVal.bool b => if b then "True" else "False"

/-- `mapping.get(key)`: first entry of the association list whose key matches. -/
def mapGet : List (String × PyVal) → String → Option PyVal
  | [], _ => none
  | (k, v) :: rest, key => if k = key then some v else mapGet rest key

/-- Attempt to read `IDENTIFIER}` at the head of `cs` (the text right after a
`${`).  The regex `[A-Za-z_][A-Za-z0-9_]*` takes the maximal identifier run;
because an identifier character can never be `}`, backtracking to a shorter
run can never help, so the maximal-munch parse is exactly the regex match.
Returns the identifier and the text after the closing brace. -/
def parsePh (cs : List Char) : Option (String × List Char) :=
  match cs with
  | [] => none
  | c :: rest =>
      if isIdentStart c then
        match rest.dropWhile isIdentChar with
        | d :: after =>
            if d = rbraceChar then
              some (String.mk (c :: rest.takeWhile isIdentChar), after)
            else none
        | [] => none
      else none

/-- The verbatim text of the placeholder for `name`: `${name}`. -/
def phText (name : String) : List Char :=
  dollarChar :: lbraceChar :: (name.data ++ [rbraceChar])

/-- Embedding of the `re.sub` scan of `_subst_template`
(src/components/warpstreamagents/warpstream_cluster.py, lines 16–19):

```python
def _subst_template(text: str, mapping: Dict[str, str]) -> str:
    def repl(m): return str(mapping.get(m.group(1), m.group(0)))
    return re.sub(r"\$\{([A-Za-z_][A-Za-z0-9_]*)\}", repl, text)
```

`re.sub` scans left to right for non-overlapping leftmost matches of the
pattern, replaces each with `repl(match)`, and never re-scans replacement
text.  A match can only start at a `$`, and no match can start inside
another, so the char-by-char scan below visits exactly the regex matches.
`fuel` bounds the recursion; `substChars` supplies `text.length`, which is
always sufficient, so the fuel-exhausted branch is unreachable. -/
def substFuel (m : List (String × PyVal)) : Nat → List Char → List Char
  | 0, cs => cs
  | _ + 1, [] => []
  | fuel + 1, c :: rest =>
      if c = dollarChar then
        match rest with
        | d :: rest2 =>
            if d = lbraceChar then
              match parsePh rest2 with
              | some (name, after) =>
                  (match mapGet m name with
                   | some v => (pyStr v).data
                   | none => phText name) ++ substFuel m fuel after
              | none => c :: substFuel m fuel rest
            else c :: substFuel m fuel rest
        | [] => [c]
      else c :: substFuel m fuel rest

/-- `re.sub` on a character list: see `substFuel`. -/
def substChars (m : List (String × PyVal)) (cs : List Char) : List Char :=
  substFuel m cs.length cs

/-- Embedding of `_subst_template` at the `String` level. -/
def _subst_template (text : String) (mapping : List (String × PyVal)) : String :=
  String.mk (substChars mapping text.data)

/-- A token of the template text: a literal character outside any
placeholder, or one `${name}` placeholder match. -/
inductive Tok where
  | lit (c : Char)
  | ph (name : String)
deriving Repr, DecidableEq

/-- The source text a token came from. -/
def tokText : Tok → List Char
  | Tok.lit c => [c]
  | Tok.ph name => phText name

/-- What the `repl` callback of `_subst_template` emits for one token:
literal characters pass through; a placeholder becomes
`str(mapping.get(name, "${name}"))`. -/
def renderTok (m : List (String × PyVal)) : Tok → List Char
  | Tok.lit c => [c]
  | Tok.ph name =>
      match mapGet m name with
      | some v => (pyStr v).data
      | none => phText name

/-- Concatenation of rendered tokens. -/
def flatRender (m : List (String × PyVal)) : List Tok → List Char
  | [] => []
  | t :: rest => renderTok m t ++ flatRender m rest

/-- Concatenation of token source texts. -/
def flatText : List Tok → List Char
  | [] => []
  | t :: rest => tokText t ++ flatText rest

/-- The leftmost-match decomposition of the template: the same scan as
`substFuel`, but recording the matches instead of replacing them. -/
def tokenizeFuel : Nat → List Char → List Tok
  | 0, cs => cs.map Tok.lit
  | _ + 1, [] => []
  | fuel + 1, c :: rest =>
      if c = dollarChar then
        match rest with
        | d :: rest2 =>
            if d = lbraceChar then
              match parsePh rest2 with
              | some (name, after) => Tok.ph name :: tokenizeFuel fuel after
              | none => Tok.lit c :: tokenizeFuel fuel rest
            else Tok.lit c :: tokenizeFuel fuel rest
        | [] => [Tok.lit c]
      else Tok.lit c :: tokenizeFuel fuel rest

/-- The regex-match decomposition of a template text. -/
def tokenize (cs : List Char) : List Tok := tokenizeFuel cs.length cs

theorem parsePh_decomp {cs : List Char} {name : String} {after : List Char}
    (h : parsePh cs = some (name, after)) :
    cs = name.data ++ (rbraceChar :: after) := by
  cases cs with
  | nil => simp [parsePh] at h
  | cons c rest =>
      simp only [parsePh] at h
      split at h
      · split at h
        · rename_i d after' heq
          split at h
          · rename_i hdr
            simp only [Option.some.injEq, Prod.mk.injEq] at h
            obtain ⟨hname, hafter⟩ := h
            have hrest : rest = rest.takeWhile isIdentChar ++ (rbraceChar :: after) := by
              conv_lhs => rw [← List.takeWhile_append_dropWhile (p := isIdentChar) (l := rest)]
              rw [heq, hdr, hafter]
            rw [← hname]
            show c :: rest = (c :: rest.takeWhile isIdentChar) ++ (rbraceChar :: after)
            rw [List.cons_append]
            exact congrArg (c :: ·) hrest
          · simp at h
        · simp at h
      · simp at h

theorem parsePh_length {cs : List Char} {name : String} {after : List Char}
    (h : parsePh cs = some (name, after)) : after.length < cs.length := by
  rw [parsePh_decomp h, List.length_append, List.length_cons]
  omega

theorem flatRender_append (m : List (String × PyVal)) (ts us : List Tok) :
    flatRender m (ts ++ us) = flatRender m ts ++ flatRender m us := by
  induction ts with
  | nil => simp [flatRender]
  | cons t rest ih => simp [flatRender, ih]

theorem flatText_append (ts us : List Tok) :
    flatText (ts ++ us) = flatText ts ++ flatText us := by
  induction ts with
  | nil => simp [flatText]
  | cons t rest ih => simp [flatText, ih]

theorem flatRender_lit (m : List (String × PyVal)) (cs : List Char) :
    flatRender m (cs.map Tok.lit) = cs := by
  induction cs with
  | nil => simp [flatRender]
  | cons c rest ih => simp [flatRender, renderTok, ih]

theorem substFuel_eq_flatRender (m : List (String × PyVal)) :
    ∀ (fuel : Nat) (cs : List Char),
    substFuel m fuel cs = flatRender m (tokenizeFuel fuel cs) := by
  intro fuel
  induction fuel with
  | zero => intro cs; simp [substFuel, tokenizeFuel, flatRender_lit]
  | succ fuel ih =>
      intro cs
      cases cs with
      | nil => simp [substFuel, tokenizeFuel, flatRender]
      | cons c rest =>
          by_cases hc : c = dollarChar
          · cases rest with
            | nil => simp [substFuel, tokenizeFuel, flatRender, renderTok, hc]
            | cons d rest2 =>
                by_cases hd : d = lbraceChar
                · cases hp : parsePh rest2 with
                  | none =>
                      simp [substFuel, tokenizeFuel, flatRender, renderTok, hc, hd, hp, ih]
                  | some pr =>
                      obtain ⟨name, after⟩ := pr
                      simp [substFuel, tokenizeFuel, flatRender, renderTok, hc, hd, hp, ih]
                · simp [substFuel, tokenizeFuel, flatRender, renderTok, hc, hd, ih]
          · simp [substFuel, tokenizeFuel, flatRender, renderTok, hc, ih]

theorem substChars_eq_tokens (m : List (String × PyVal)) (cs : List Char) :
    substChars m cs = flatRender m (tokenize cs) :=
  substFuel_eq_flatRender m cs.length cs

theorem flatText_tokenizeFuel : ∀ (fuel : Nat) (cs : List Char), cs.length ≤ fuel →
    flatText (tokenizeFuel fuel cs) = cs := by
  intro fuel
  induction fuel with
  | zero =>
      intro cs h
      have : cs = [] := List.eq_nil_of_length_eq_zero (Nat.le_zero.mp h)
      subst this
      simp [tokenizeFuel, flatText]
  | succ fuel ih =>
      intro cs h
      cases cs with
      | nil => simp [tokenizeFuel, flatText]
      | cons c rest =>
          have hr : rest.length ≤ fuel := by
            simp only [List.length_cons] at h
            omega
          by_cases hc : c = dollarChar
          · subst hc
            cases rest with
            | nil => simp [tokenizeFuel, flatText, tokText]
            | cons d rest2 =>
                by_cases hd : d = lbraceChar
                · subst hd
                  cases hp : parsePh rest2 with
                  | none =>
                      simp [tokenizeFuel, flatText, tokText, hp, ih _ hr]
                  | some pr =>
                      obtain ⟨name, after⟩ := pr
                      have hafter : after.length ≤ fuel := by
                        have h1 := parsePh_length hp
                        simp only [List.length_cons] at hr
                        omega
                      have hdec := parsePh_decomp hp
                      simp [tokenizeFuel, flatText, tokText, hp, ih _ hafter, phText]
                      simp [hdec]
                · simp [tokenizeFuel, flatText, tokText, hd, ih _ hr]
          · simp [tokenizeFuel, flatText, tokText, hc, ih _ hr]

theorem flatText_tokenize (cs : List Char) : flatText (tokenize cs) = cs :=
  flatText_tokenizeFuel cs.length cs (le_refl _)

theorem template_decomp (cs : List Char) (pre post : List Tok) (name : String)
    (htok : tokenize cs = pre ++ Tok.ph name :: post) :
    cs = flatText pre ++ (phText name ++ flatText post) := by
  conv_lhs => rw [← flatText_tokenize cs, htok]
  rw [flatText_append]
  rfl

theorem substChars_decomp (m : List (String × PyVal)) (cs : List Char)
    (pre post : List Tok) (name : String)
    (htok : tokenize cs = pre ++ Tok.ph name :: post) :
    substChars m cs = flatRender m pre ++ (renderTok m (Tok.ph name) ++ flatRender m post) := by
  rw [substChars_eq_tokens, htok, flatRender_append]
  rfl

/-- **C1** — Placeholder pass-through: for every template and mapping, a
`${IDENTIFIER}` match of the template whose identifier is not a key of the
mapping appears in the output of the substitution unchanged and verbatim,
delimiters included: the template splits as `pre ++ ${name} ++ post` and the
output as `render(pre) ++ ${name} ++ render(post)` — the placeholder is
neither dropped, nor replaced by the empty string, nor an error. -/
theorem subst_passthrough (cs : List Char) (m : List (String × PyVal))
    (pre post : List Tok) (name : String)
    (htok : tokenize cs = pre ++ Tok.ph name :: post)
    (habs : mapGet m name = none) :
    cs = flatText pre ++ (phText name ++ flatText post) ∧
    substChars m cs = flatRender m pre ++ (phText name ++ flatRender m post) := by
  refine ⟨template_decomp cs pre post name htok, ?_⟩
  rw [substChars_decomp m cs pre post name htok]
  simp [renderTok, habs]

theorem subst_passthrough_witness :
    "x${A}y".data = flatText [Tok.lit 'x'] ++ (phText "A" ++ flatText [Tok.lit 'y']) ∧
    substChars [("B", PyVal.str "v")] "x${A}y".data
      = flatRender [("B", PyVal.str "v")] [Tok.lit 'x']
        ++ (phText "A" ++ flatRender [("B", PyVal.str "v")] [Tok.lit 'y']) :=
  subst_passthrough "x${A}y".data [("B", PyVal.str "v")]
    [Tok.lit 'x'] [Tok.lit 'y'] "A" (by decide) (by decide)

/-- **C5** — Single-pass substitution: the scan visits the template's
leftmost `${IDENTIFIER}` matches once, left to right, and the output is the
per-token rendering of that decomposition — replacement text is inserted
as-is and never re-scanned (a replacement value containing `${X}` stays
literal even when `X` is mapped), and a repeated placeholder is substituted
independently at each occurrence with the same value, so
`render("${A}${A}", ⟨A ↦ "z"⟩) = "zz"`. -/
theorem subst_single_pass :
    (∀ (m : List (String × PyVal)) (cs : List Char),
        substChars m cs = flatRender m (tokenize cs)) ∧
    _subst_template "${A}${A}" [("A", PyVal.str "z")] = "zz" ∧
    _subst_template "${A}" [("A", PyVal.str "${B}"), ("B", PyVal.str "x")] = "${B}" :=
  ⟨substChars_eq_tokens, by decide, by decide⟩

/-- **C9** — Value stringification: a mapping value of any type is accepted;
the substitution inserts Python's `str()` conversion of the value at each
matching placeholder (`True` for the boolean `True`, `5` for the integer
`5`), so the renderer is total over mappings with non-string values. -/
theorem subst_stringify :
    (∀ (m : List (String × PyVal)) (cs : List Char) (pre post : List Tok)
        (name : String) (v : PyVal),
        tokenize cs = pre ++ Tok.ph name :: post → mapGet m name = some v →
        substChars m cs = flatRender m pre ++ ((pyStr v).data ++ flatRender m post)) ∧
    pyStr (PyVal.bool true) = "True" ∧
    pyStr (PyVal.int 5) = "5" ∧
    _subst_template "${A}" [("A", PyVal.bool true)] = "True" ∧
    _subst_template "${N}" [("N", PyVal.int 5)] = "5" := by
  refine ⟨?_, by decide, by decide, by decide, by decide⟩
  intro m cs pre post name v htok hv
  rw [substChars_decomp m cs pre post name htok]
  simp [renderTok, hv]

theorem subst_stringify_witness :
    substChars [("A", PyVal.bool true)] (phText "A")
      = flatRender [("A", PyVal.bool true)] []
        ++ ((pyStr (PyVal.bool true)).data ++ flatRender [("A", PyVal.bool true)] []) :=
  subst_stringify.1 [("A", PyVal.bool true)] (phText "A") [] [] "A" (PyVal.bool true)
    (by decide) (by decide)

/-- **C8** — Totality and empty-input determinism: the renderer and the
merger are total functions of their embeddings (they return plain values,
with no error branch), `None` merge arguments are treated as the empty
mapping, and on empty inputs `render("", m) = ""` and `merge({}, {}) = {}`. -/
theorem render_merge_total :
    _subst_template "" [] = "" ∧
    deep_merge [] [] = [] ∧
    deep_mergeOpt none none = [] ∧
    (∀ a : Dict, deep_mergeOpt (some a) none = a) ∧
    (∀ b : Option Dict, deep_mergeOpt none b = deep_merge [] (b.getD [])) :=
  ⟨by decide, by simp [deep_merge], by simp [deep_mergeOpt, deep_merge],
   fun a => by simp [deep_mergeOpt, deep_merge],
   fun b => by simp [deep_mergeOpt]⟩

/-- A JSON/YAML document value, the parse result of the kubeconfig text the
two renderers emit (`json.dumps` of a Python dict in the generator,
literal YAML in `kubeconfig_gke_exec`).  Object fields keep source order. -/
inductive J where
  | str (s : String)
  | bool (b : Bool)
  | arr (items : List J)
  | obj (fields : List (String × J))
deriving Repr

/-- First field of a JSON object field list matching `key`. -/
def jGet : List (String × J) → String → Option J
  | [], _ => none
  | (k, v) :: rest, key => if k = key then some v else jGet rest key

/-- Field lookup on an object document. -/
def jObjGet : J → String → Option J
  | J.obj fields, key => jGet fields key
  | _, _ => none

/-- Index lookup on an array document. -/
def jIdx : J → Nat → Option J
  | J.arr items, i => items.get? i
  | _, _ => none

/-- One step of a field path through an optional document. -/
def jStep (o : Option J) (key : String) : Option J := o.bind (fun d => jObjGet d key)

/-- One step of an array index through an optional document. -/
def jStepIdx (o : Option J) (i : Nat) : Option J := o.bind (fun d => jIdx d i)

/-- Embedding of `_generate_kubeconfig_string`
(src/components/gke-cluster/kubeconfig_generator.py, lines 29–68): the
`kubeconfig` dict the function serializes with `json.dumps(kubeconfig,
indent=2)`, field for field.  `context = f"gke_{cluster_name}"` names the
current-context and the context entry; the cluster entry keeps the bare
cluster name; the user entry is named `admin`; the user authenticates via
the `gke-gcloud-auth-plugin` exec plugin and no certificate data appears
anywhere (the function does not even receive a CA argument). -/
def _generate_kubeconfig_string (cluster_name dns_endpoint : String) : J :=
  J.obj [
    ("apiVersion", J.str "v1"),
    ("kind", J.str "Config"),
    ("current-context", J.str ("gke_" ++ cluster_name)),
    ("contexts", J.arr [J.obj [
        ("name", J.str ("gke_" ++ cluster_name)),
        ("context", J.obj [
            ("cluster", J.str cluster_name),
            ("user", J.str "admin")])]]),
    ("clusters", J.arr [J.obj [
        ("name", J.str cluster_name),
        ("cluster", J.obj [
            ("server", J.str ("https://" ++ dns_endpoint))])]]),
    ("users", J.arr [J.obj [
        ("name", J.str "admin"),
        ("user", J.obj [
            ("exec", J.obj [
                ("apiVersion", J.str "client.authentication.k8s.io/v1beta1"),
                ("command", J.str "gke-gcloud-auth-plugin"),
                ("installHint", J.str "Install gke-gcloud-auth-plugin for use with kubectl by following https://cloud.google.com/blog/products/containers-kubernetes/kubectl-auth-changes-in-gke"),
                ("provideClusterInfo", J.bool true)])])]])]

/-- Embedding of the `_render` body of `kubeconfig_gke_exec`
(src/components/kubeconfig/kubeconfig.py, lines 12–47): the parse of the
YAML f-string, field for field.  All of current-context, the cluster entry,
the context entry, the user entry, and the context body use the bare
cluster name; the CA data sits under the cluster entry
(`certificate-authority-data`); the user's credential is the
`gke-gcloud-auth-plugin` exec plugin pinned to
`client.authentication.k8s.io/v1` with `provideClusterInfo: true` and
`interactiveMode: false`. -/
def kubeconfig_gke_exec (name ep ca : String) : J :=
  J.obj [
    ("apiVersion", J.str "v1"),
    ("kind", J.str "Config"),
    ("current-context", J.str name),
    ("clusters", J.arr [J.obj [
        ("name", J.str name),
        ("cluster", J.obj [
            ("server", J.str ("https://" ++ ep)),
            ("certificate-authority-data", J.str ca)])]]),
    ("contexts", J.arr [J.obj [
        ("name", J.str name),
        ("context", J.obj [
            ("cluster", J.str name),
            ("user", J.str name)])]]),
    ("users", J.arr [J.obj [
        ("name", J.str name),
        ("user", J.obj [
            ("exec", J.obj [
                ("apiVersion", J.str "client.authentication.k8s.io/v1"),
                ("command", J.str "gke-gcloud-auth-plugin"),
                ("installHint", J.str "Install gke-gcloud-auth-plugin: https://cloud.google.com/blog/products/containers-kubernetes/kubectl-auth-changes-in-gke"),
                ("provideClusterInfo", J.bool true),
                ("interactiveMode", J.bool false)])])]])]

/-- `users[0].user` of a kubeconfig document. -/
def userObjOf (doc : J) : Option J :=
  jStep (jStepIdx (jStep (some doc) "users") 0) "user"

/-- `users[0].user.exec` of a kubeconfig document. -/
def execObjOf (doc : J) : Option J := jStep (userObjOf doc) "exec"

/-- `clusters[0].cluster` of a kubeconfig document. -/
def clusterObjOf (doc : J) : Option J :=
  jStep (jStepIdx (jStep (some doc) "clusters") 0) "cluster"

/-- **C7** — Exec-plugin kubeconfig contract: for every cluster name,
endpoint and CA, `kubeconfig_gke_exec` produces a document with a single
user whose credential is the delegated `gke-gcloud-auth-plugin` command,
apiVersion pinned to `client.authentication.k8s.io/v1`, an installHint,
`provideClusterInfo: true`, `interactiveMode: false`, and no certificate
field under the user entry (its only field is `exec`); concretely
`kubeconfig_gke_exec "c1" "1.2.3.4" "BASE64CA"` has
`users[0].user.exec.command == "gke-gcloud-auth-plugin"`. -/
theorem kubeconfig_exec_contract :
    (∀ name ep ca : String,
      (∃ u, jStep (some (kubeconfig_gke_exec name ep ca)) "users" = some (J.arr [u])) ∧
      jStep (execObjOf (kubeconfig_gke_exec name ep ca)) "command"
        = some (J.str "gke-gcloud-auth-plugin") ∧
      jStep (execObjOf (kubeconfig_gke_exec name ep ca)) "apiVersion"
        = some (J.str "client.authentication.k8s.io/v1") ∧
      (jStep (execObjOf (kubeconfig_gke_exec name ep ca)) "installHint").isSome = true ∧
      jStep (execObjOf (kubeconfig_gke_exec name ep ca)) "provideClusterInfo"
        = some (J.bool true) ∧
      jStep (execObjOf (kubeconfig_gke_exec name ep ca)) "interactiveMode"
        = some (J.bool false) ∧
      (∃ e, userObjOf (kubeconfig_gke_exec name ep ca) = some (J.obj [("exec", e)]))) ∧
    jStep (execObjOf (kubeconfig_gke_exec "c1" "1.2.3.4" "BASE64CA")) "command"
      = some (J.str "gke-gcloud-auth-plugin") :=
  ⟨fun _ _ _ => ⟨⟨_, rfl⟩, rfl, rfl, rfl, rfl, rfl, ⟨_, rfl⟩⟩, rfl⟩

/-- **C2 counterexample** — There is no static-auth renderer: the cited
generator `_generate_kubeconfig_string` (which takes no CA argument at all)
emits no `certificate-authority-data` under its cluster entry, and the only
renderer taking `(cluster_name, endpoint, ca_cert_base64)` —
`kubeconfig_gke_exec` — gives its user entry an `exec` plugin and no
embedded CA field, at the claim's own concrete input
`("c1", "1.2.3.4", "BASE64CA")`. -/
theorem kubeconfig_static_counterexample :
    jStep (clusterObjOf (_generate_kubeconfig_string "c1" "1.2.3.4"))
        "certificate-authority-data" = none ∧
    (jStep (userObjOf (kubeconfig_gke_exec "c1" "1.2.3.4" "BASE64CA")) "exec").isSome
        = true ∧
    jStep (userObjOf (kubeconfig_gke_exec "c1" "1.2.3.4" "BASE64CA"))
        "certificate-authority-data" = none :=
  ⟨rfl, rfl, rfl⟩

/-- **C2 (amended)** — The three-argument renderer `kubeconfig_gke_exec` is
the only one receiving a CA: for every cluster name, endpoint and base64 CA
it produces a document whose single cluster entry has server
`https://{endpoint}` and `certificate-authority-data` equal to the given CA
(so at `("c1", "1.2.3.4", "BASE64CA")` the parsed document has
`clusters[0].cluster.server == "https://1.2.3.4"` and
`clusters[0].cluster.certificate-authority-data == "BASE64CA"`), but its
user entry delegates to an exec plugin instead of embedding the CA; the
two-argument generator `_generate_kubeconfig_string` carries no certificate
data anywhere and also delegates to an exec plugin. -/
theorem kubeconfig_ca_under_cluster :
    (∀ name ep ca : String,
      (∃ c, jStep (some (kubeconfig_gke_exec name ep ca)) "clusters" = some (J.arr [c])) ∧
      jStep (clusterObjOf (kubeconfig_gke_exec name ep ca)) "server"
        = some (J.str ("https://" ++ ep)) ∧
      jStep (clusterObjOf (kubeconfig_gke_exec name ep ca)) "certificate-authority-data"
        = some (J.str ca) ∧
      (jStep (userObjOf (kubeconfig_gke_exec name ep ca)) "exec").isSome = true) ∧
    jStep (clusterObjOf (kubeconfig_gke_exec "c1" "1.2.3.4" "BASE64CA")) "server"
      = some (J.str "https://1.2.3.4") ∧
    jStep (clusterObjOf (kubeconfig_gke_exec "c1" "1.2.3.4" "BASE64CA"))
        "certificate-authority-data" = some (J.str "BASE64CA") ∧
    (∀ name ep : String,
      jStep (clusterObjOf (_generate_kubeconfig_string name ep))
          "certificate-authority-data" = none ∧
      (jStep (userObjOf (_generate_kubeconfig_string name ep)) "exec").isSome = true) :=
  ⟨fun _ _ _ => ⟨⟨_, rfl⟩, rfl, rfl, rfl⟩, rfl, rfl, fun _ _ => ⟨rfl, rfl⟩⟩

/-- **C3 counterexample** — The naming convention is mixed in the generator
variant: at cluster name `c1`, `_generate_kubeconfig_string` names the
context entry `gke_c1`, the cluster entry `c1`, and the user entry `admin`
— the three names are not all equal to one identifier. -/
theorem kubeconfig_naming_counterexample :
    jStep (jStepIdx (jStep (some (_generate_kubeconfig_string "c1" "1.2.3.4")) "contexts") 0)
        "name" = some (J.str "gke_c1") ∧
    jStep (jStepIdx (jStep (some (_generate_kubeconfig_string "c1" "1.2.3.4")) "clusters") 0)
        "name" = some (J.str "c1") ∧
    jStep (jStepIdx (jStep (some (_generate_kubeconfig_string "c1" "1.2.3.4")) "users") 0)
        "name" = some (J.str "admin") ∧
    (J.str "gke_c1" ≠ J.str "c1") ∧ (J.str "c1" ≠ J.str "admin") :=
  ⟨rfl, rfl, rfl, by simp, by simp⟩

/-- **C3 (amended)** — Only the exec variant applies one identifier
consistently: in `kubeconfig_gke_exec` the current-context, context name,
cluster name, user name and the context body's cluster/user references all
equal the bare cluster name; in `_generate_kubeconfig_string` the naming is
mixed — current-context and the context entry are `gke_{cluster_name}`, the
cluster entry keeps the bare cluster name, the user entry is named `admin`,
and the context body references exactly those two. -/
theorem kubeconfig_naming :
    (∀ name ep ca : String,
      jStep (some (kubeconfig_gke_exec name ep ca)) "current-context"
        = some (J.str name) ∧
      jStep (jStepIdx (jStep (some (kubeconfig_gke_exec name ep ca)) "contexts") 0) "name"
        = some (J.str name) ∧
      jStep (jStepIdx (jStep (some (kubeconfig_gke_exec name ep ca)) "clusters") 0) "name"
        = some (J.str name) ∧
      jStep (jStepIdx (jStep (some (kubeconfig_gke_exec name ep ca)) "users") 0) "name"
        = some (J.str name) ∧
      jStep (jStep (jStepIdx (jStep (some (kubeconfig_gke_exec name ep ca)) "contexts") 0)
          "context") "cluster" = some (J.str name) ∧
      jStep (jStep (jStepIdx (jStep (some (kubeconfig_gke_exec name ep ca)) "contexts") 0)
          "context") "user" = some (J.str name)) ∧
    (∀ name ep : String,
      jStep (some (_generate_kubeconfig_string name ep)) "current-context"
        = some (J.str ("gke_" ++ name)) ∧
      jStep (jStepIdx (jStep (some (_generate_kubeconfig_string name ep)) "contexts") 0)
          "name" = some (J.str ("gke_" ++ name)) ∧
      jStep (jStepIdx (jStep (some (_generate_kubeconfig_string name ep)) "clusters") 0)
          "name" = some (J.str name) ∧
      jStep (jStepIdx (jStep (some (_generate_kubeconfig_string name ep)) "users") 0)
          "name" = some (J.str "admin") ∧
      jStep (jStep (jStepIdx (jStep (some (_generate_kubeconfig_string name ep)) "contexts") 0)
          "context") "cluster" = some (J.str name) ∧
      jStep (jStep (jStepIdx (jStep (some (_generate_kubeconfig_string name ep)) "contexts") 0)
          "context") "user" = some (J.str "admin")) :=
  ⟨fun _ _ _ => ⟨rfl, rfl, rfl, rfl, rfl, rfl⟩,
   fun _ _ => ⟨rfl, rfl, rfl, rfl, rfl, rfl⟩⟩
